import Mathlib

/-!
Verification development for the powerpipe bootstrap code
(internal/controldisplay/formatter_fs.go and the cmdconfig hooks):
a shallow embedding of the template synchronizer
(EnsureTemplates / writeTemplate / version readers) and of the startup
sequencer (preRunHook / postRunHook / validateConfig), together with
theorems settling the specification claims about them.

File I/O is embedded by explicit state passing: the on-disk file system is
an association list from paths to file states, the embedded file system is
a list of template directories, and fallibility of the OS operations
(MkdirAll, WriteFile, embedded ReadFile) is injected through an immutable
fault environment.  Every operation that can fail in Go returns its error
explicitly here.
-/

namespace Powerpipe

/-- State of one on-disk file: present but unreadable (os.ReadFile returns a
non-NotExist error), or present with readable byte content.  A path absent
from the association list models a missing file (os.IsNotExist). -/
inductive DiskFile where
  | unreadable : DiskFile
  | content : String → DiskFile
deriving DecidableEq

/-- Fault-injection environment: which OS operations fail.  It is immutable
during a run, modelling deterministic I/O failures (permissions, full disk). -/
structure Faults where
  mkdirFails : List String
  writeFails : List String
  embedReadFails : List String
deriving DecidableEq

/-- No injected faults: the happy path. -/
def noFaults : Faults := ⟨[], [], []⟩

/-- The mutable world: the on-disk files and a chronological log of every
successful WriteFile call (path and bytes written), used to state
zero-write properties. -/
structure World where
  files : List (String × DiskFile)
  log : List (String × String)
deriving DecidableEq

/-- One entry of an embedded template directory, as returned by fs.ReadDir:
a name, the IsDir flag, and (for regular files) the embedded content. -/
structure EmbeddedEntry where
  name : String
  isDir : Bool
  content : String
deriving DecidableEq

/-- One embedded template bundle: the directory name under templates/ and
its entries. -/
structure TemplateDir where
  name : String
  entries : List EmbeddedEntry
deriving DecidableEq

/-- The embedded file system builtinTemplateFS: the list of bundle
directories under templates/. -/
abbrev EmbedFS := List TemplateDir

/-- filepath.Join for the two-component joins used by this code. -/
def pathJoin (a b : String) : String := a ++ "/" ++ b

/-- Root directory name of the embedded bundles. -/
def embedTemplatesRoot : String := "templates"

/-- Full embedded path templates/dir/file of an embedded entry. -/
def embedFilePath (dir file : String) : String :=
  pathJoin (pathJoin embedTemplatesRoot dir) file

/-- Serialization of TemplateVersionFile: the version descriptor JSON. -/
def versionJsonOf (v : String) : String :=
  "\x7b\"version\":\"" ++ v ++ "\"\x7d"

/-- Drop an expected leading character sequence, or fail. -/
def dropLead : List Char → List Char → Option (List Char)
  | [], rest => some rest
  | _ :: _, [] => none
  | p :: ps, c :: cs => if p = c then dropLead ps cs else none

/-- Model of json.Unmarshal into TemplateVersionFile: accepts the canonical
descriptor shape and yields its version field; anything else is an
unmarshalling failure. -/
def parseVersionJson (s : String) : Option String :=
  match dropLead ("\x7b\"version\":\"".data) s.data with
  | none => none
  | some rest =>
    match rest.reverse with
    | '\x7d' :: '"' :: midrev => some (String.mk midrev.reverse)
    | _ => none

/-- Look up a path in the on-disk file list (first match wins). -/
def diskRead (files : List (String × DiskFile)) (p : String) : Option DiskFile :=
  (files.find? (fun q => q.1 == p)).map (fun q => q.2)

/-- Overwrite or create a file: replace the first entry at the path, or
append a new one. -/
def diskWrite : List (String × DiskFile) → String → String → List (String × DiskFile)
  | [], p, c => [(p, DiskFile.content c)]
  | (q, f) :: rest, p, c =>
    if q == p then (p, DiskFile.content c) :: rest
    else (q, f) :: diskWrite rest p c

/-- Result of os.ReadFile: file missing, other I/O error, or the bytes. -/
inductive ReadResult where
  | notExist : ReadResult
  | ioError : ReadResult
  | ok : String → ReadResult
deriving DecidableEq

/-- os.ReadFile against the modelled disk. -/
def osReadFile (files : List (String × DiskFile)) (p : String) : ReadResult :=
  match diskRead files p with
  | none => ReadResult.notExist
  | some DiskFile.unreadable => ReadResult.ioError
  | some (DiskFile.content s) => ReadResult.ok s

/-- getCurrentTemplateVersion: read the installed version.json; a missing
file, a read error, or a failed unmarshal all yield the empty version. -/
def getCurrentTemplateVersion (files : List (String × DiskFile)) (path : String) : String :=
  match osReadFile files path with
  | ReadResult.notExist => ""
  | ReadResult.ioError => ""
  | ReadResult.ok data =>
    match parseVersionJson data with
    | none => ""
    | some v => v

/-- fs.ReadFile against the embedded file system: fails on an injected
fault, a missing bundle, a missing entry, or a directory entry. -/
def embedReadFile (efs : EmbedFS) (fl : Faults) (dir file : String) : Option String :=
  if fl.embedReadFails.contains (embedFilePath dir file) then none
  else
    match efs.find? (fun d => d.name == dir) with
    | none => none
    | some d =>
      match d.entries.find? (fun e => e.name == file) with
      | none => none
      | some e => if e.isDir then none else some e.content

/-- getEmbeddedTemplateVersion: read templates/dir/version.json from the
embedded file system; any read or unmarshal failure yields the empty
version. -/
def getEmbeddedTemplateVersion (efs : EmbedFS) (fl : Faults) (dir : String) : String :=
  match embedReadFile efs fl dir "version.json" with
  | none => ""
  | some data =>
    match parseVersionJson data with
    | none => ""
    | some v => v

/-- Errors of the copy loop, tagged by failing operation and path. -/
inductive TErr where
  | mkdirError : String → TErr
  | readDirError : String → TErr
  | readError : String → TErr
  | writeError : String → TErr
deriving DecidableEq

/-- os.WriteFile: fails on an injected fault, otherwise updates the disk
and appends to the write log. -/
def osWriteFile (fl : Faults) (w : World) (p c : String) : Option World :=
  if fl.writeFails.contains p then none
  else some { files := diskWrite w.files p c, log := w.log ++ [(p, c)] }

/-- The entry loop of writeTemplate: directories are skipped; each regular
entry is read from the embedded file system and written to the target
directory; the first error aborts the loop. -/
def writeEntriesLoop (efs : EmbedFS) (fl : Faults) (path target : String) :
    List EmbeddedEntry → World → World × Option TErr
  | [], w => (w, none)
  | e :: rest, w =>
    if e.isDir then writeEntriesLoop efs fl path target rest w
    else
      match embedReadFile efs fl path e.name with
      | none => (w, some (TErr.readError (embedFilePath path e.name)))
      | some bytes =>
        match osWriteFile fl w (pathJoin target e.name) bytes with
        | none => (w, some (TErr.writeError (pathJoin target e.name)))
        | some w2 => writeEntriesLoop efs fl path target rest w2

/-- writeTemplate: MkdirAll on the target, fs.ReadDir on the embedded
bundle, then the entry copy loop. -/
def writeTemplate (efs : EmbedFS) (fl : Faults) (path target : String) (w : World) :
    World × Option TErr :=
  if fl.mkdirFails.contains target then (w, some (TErr.mkdirError target))
  else
    match efs.find? (fun d => d.name == path) with
    | none => (w, some (TErr.readDirError path))
    | some d => writeEntriesLoop efs fl path target d.entries w

/-- The line-42 guard of EnsureTemplates: the installed version differs
from the embedded one (string inequality). -/
def bundleNeedsSync (td : String) (efs : EmbedFS) (fl : Faults) (w : World)
    (d : TemplateDir) : Bool :=
  getCurrentTemplateVersion w.files (pathJoin (pathJoin td d.name) "version.json")
    != getEmbeddedTemplateVersion efs fl d.name

/-- The bundle loop of EnsureTemplates: for each embedded bundle directory,
resync when the versions differ, propagating the first error. -/
def ensureLoop (efs : EmbedFS) (fl : Faults) (td : String) :
    List TemplateDir → World → World × Option TErr
  | [], w => (w, none)
  | d :: rest, w =>
    if bundleNeedsSync td efs fl w d then
      match writeTemplate efs fl d.name (pathJoin td d.name) w with
      | (w2, some e) => (w2, some e)
      | (w2, none) => ensureLoop efs fl td rest w2
    else ensureLoop efs fl td rest w

/-- EnsureTemplates: iterate the embedded bundle directories (td is the
installed template root returned by filepaths.EnsureTemplateDir). -/
def EnsureTemplates (td : String) (efs : EmbedFS) (fl : Faults) (w : World) :
    World × Option TErr :=
  ensureLoop efs fl td efs w

/-! ## Startup sequencer model (cmdconfig hooks)

postRunHook's select between time.After(100ms) and the completion channel
is embedded by an oracle giving the instant (in milliseconds) at which the
channel would signal, or nothing when the channel is nil. -/

/-- Abstracted outcome of the postRunHook select. -/
inductive PostRunResult where
  | noWait : PostRunResult
  | completed : Nat → PostRunResult
  | canceledAfterTimeout : PostRunResult
deriving DecidableEq

/-- The fixed wait of postRunHook: 100 milliseconds. -/
def postRunTimeoutMs : Nat := 100

/-- postRunHook: nil channel returns at once; otherwise select between the
100ms timer and the completion signal, cancelling the task context when
the timer fires first. -/
def postRunHook (waitForTasksChannel : Option Nat) : PostRunResult :=
  match waitForTasksChannel with
  | none => PostRunResult.noWait
  | some t =>
    if t < postRunTimeoutMs then PostRunResult.completed t
    else PostRunResult.canceledAfterTimeout

/-- Milliseconds postRunHook blocks before returning. -/
def postRunElapsed : PostRunResult → Nat
  | PostRunResult.noWait => 0
  | PostRunResult.completed t => t
  | PostRunResult.canceledAfterTimeout => postRunTimeoutMs

/-- Did postRunHook invoke tasksCancelFn. -/
def postRunCanceled : PostRunResult → Bool
  | PostRunResult.canceledAfterTimeout => true
  | _ => false

/-- The log-level environment variables of the process: the primary
sdklogging variable and the values of the legacy aliases. -/
structure LogLevelEnv where
  primary : Option String
  legacy : List (Option String)
deriving DecidableEq

/-- First legacy alias that is set, if any. -/
def firstSetLegacy (e : LogLevelEnv) : Option String :=
  (e.legacy.find? Option.isSome).join

/-- envLogLevelSet: whether the primary or any legacy log-level variable
is set. -/
def envLogLevelSet (e : LogLevelEnv) : Bool :=
  e.primary.isSome || e.legacy.any Option.isSome

/-- logLevelNeedsReset: no log-level environment variable is set and the
merged global config carries a general-options log level.  The Go
conjunction GeneralOptions non-nil and LogLevel non-nil is flattened into
one Option. -/
def logLevelNeedsReset (e : LogLevelEnv) (generalLogLevel : Option String) : Bool :=
  !envLogLevelSet e && generalLogLevel.isSome

/-- Modelled from the spec: viper.GetString of the log-level key after the
merge, with environment values taking precedence over config-file values
(spec section 3 precedence order); the resolution inside viper itself is
outside this repository. -/
def viperLogLevel (e : LogLevelEnv) (generalLogLevel : Option String) : String :=
  match e.primary with
  | some v => v
  | none =>
    match firstSetLegacy e with
    | some v => v
    | none => generalLogLevel.getD ""

/-- The os.Setenv step of preRunHook: when logLevelNeedsReset, write the
resolved level into the primary environment variable. -/
def setLogLevelEnvStep (e : LogLevelEnv) (g : Option String) : LogLevelEnv :=
  if logLevelNeedsReset e g then { e with primary := some (viperLogLevel e g) } else e

/-- What log level the process environment already specifies (primary
variable first, then legacy aliases), if any. -/
def envSpecifiedLogLevel (e : LogLevelEnv) : Option String :=
  match e.primary with
  | some v => some v
  | none => firstSetLegacy e

/-- The effective log level resolved from the merged configuration:
environment over general-options config, nothing when neither is set. -/
def effectiveLogLevel (e : LogLevelEnv) (g : Option String) : Option String :=
  match envSpecifiedLogLevel e with
  | some v => some v
  | none => g

/-- error_helpers.ErrorAndWarnings: at most one fatal error plus advisory
warnings. -/
structure ErrorAndWarnings where
  error : Option String
  warnings : List String
deriving DecidableEq

/-- Modelled from the spec: the enumerated allowed telemetry values
(constants.TelemetryLevels lives in the steampipe dependency). -/
def TelemetryLevels : List String := ["none", "info"]

/-- Modelled from the spec: the deprecation warning emitted when the legacy
diagnostics-level environment variable is present. -/
def legacyDiagnosticsWarning : String :=
  "Environment variable STEAMPIPE_DIAGNOSTICS_LEVEL is deprecated - use STEAMPIPE_DIAGNOSTIC_LEVEL"

/-- validateConfig: an out-of-set telemetry value is a fatal error and
returns at once; otherwise the presence of the legacy diagnostics variable
only adds a warning, and the error field is whatever
plugin.ValidateDiagnosticsEnvVar (an external check of the diagnostics
variables' values, passed in as an oracle) returns. -/
def validateConfig (telemetry : String) (legacyDiagnosticsSet : Bool)
    (diagErr : Option String) : ErrorAndWarnings :=
  if !TelemetryLevels.contains telemetry then
    { error := some ("invalid value of telemetry (" ++ telemetry ++ "), must be one of: "
        ++ String.intercalate ", " TelemetryLevels),
      warnings := [] }
  else
    { error := diagErr,
      warnings := if legacyDiagnosticsSet then [legacyDiagnosticsWarning] else [] }

/-- The cobra command handed to the hooks: name, args, stdout TTY flag. -/
structure CmdInput where
  name : String
  args : List String
  tty : Bool
deriving DecidableEq

/-- Oracles for the external collaborators of preRunHook: outcomes of the
steps this repository delegates (viper bootstrap, config-file load, cloud
token resolution, diagnostics validation) and ambient facts. -/
structure PreRunOracles where
  isPluginManagerCmd : Bool
  bootstrapErr : Option String
  loadConfigErr : Option String
  loadConfigWarnings : List String
  generalLogLevel : Option String
  telemetry : String
  legacyDiagnosticsSet : Bool
  diagErr : Option String
  cloudTokenErr : Option String
  memoryMaxMb : Int
deriving DecidableEq

/-- Observable process state threaded through preRunHook: the three viper
keys recorded up front, the log-level environment, and flags recording the
side effects of each step (install dir ensured, global config stored,
logger constructions, task runner launched, memory limit applied, fatal
exit). -/
structure ProcState where
  viperCmd : Option String
  viperArgs : Option (List String)
  viperTTY : Option Bool
  env : LogLevelEnv
  installDirEnsured : Bool
  globalConfigSet : Bool
  loggerCreations : Nat
  tasksStarted : Bool
  memoryLimitSet : Bool
  exited : Bool
deriving DecidableEq

/-- createLogger: the plugin manager sets up its own logger; otherwise a
logger is constructed (counted). -/
def createLogger (o : PreRunOracles) (s : ProcState) : ProcState :=
  if o.isPluginManagerCmd then s else { s with loggerCreations := s.loggerCreations + 1 }

/-- initGlobalConfig: bootstrap viper, ensure the install directory, load
the config (storing it globally), resolve the cloud token, then
validateConfig (whose fatal error exits the process via
FailOnErrorWithMessage); errors short-circuit in that order. -/
def initGlobalConfig (o : PreRunOracles) (s : ProcState) : ProcState × ErrorAndWarnings :=
  match o.bootstrapErr with
  | some e => (s, ⟨some e, []⟩)
  | none =>
    let s1 := { s with installDirEnsured := true }
    match o.loadConfigErr with
    | some e => (s1, ⟨some e, o.loadConfigWarnings⟩)
    | none =>
      let s2 := { s1 with globalConfigSet := true }
      match o.cloudTokenErr with
      | some e => (s2, ⟨some e, o.loadConfigWarnings⟩)
      | none =>
        let ew := validateConfig o.telemetry o.legacyDiagnosticsSet o.diagErr
        match ew.error with
        | some e => ({ s2 with exited := true }, ⟨some e, o.loadConfigWarnings⟩)
        | none => (s2, ⟨none, o.loadConfigWarnings ++ ew.warnings⟩)

/-- runScheduledTasks: skipped for the plugin manager (nil channel),
otherwise the task runner is launched and its channel stored. -/
def runScheduledTasks (o : PreRunOracles) (s : ProcState) : ProcState :=
  if o.isPluginManagerCmd then { s with tasksStarted := false }
  else { s with tasksStarted := true }

/-- setMemoryLimit: apply the configured ceiling when positive. -/
def setMemoryLimit (o : PreRunOracles) (s : ProcState) : ProcState :=
  if o.memoryMaxMb * 1024 * 1024 > 0 then { s with memoryLimitSet := true } else s

/-- The three viper.Set calls at the top of preRunHook: record the active
command, its arguments, and the terminal-TTY flag. -/
def recordCmdKeys (c : CmdInput) (s : ProcState) : ProcState :=
  { s with viperCmd := some c.name, viperArgs := some c.args, viperTTY := some c.tty }

/-- preRunHook: record the three viper keys, short-circuit for completion,
then logger construction, initGlobalConfig with FailOnError, the log-level
environment step, logger reconstruction, task launch, memory limit. -/
def preRunHook (c : CmdInput) (o : PreRunOracles) (s0 : ProcState) : ProcState :=
  let s1 := recordCmdKeys c s0
  if c.name == "completion" then s1
  else
    let s2 := createLogger o s1
    let p := initGlobalConfig o s2
    if p.1.exited then p.1
    else
      match p.2.error with
      | some _ => { p.1 with exited := true }
      | none =>
        let s4 := { p.1 with env := setLogLevelEnvStep p.1.env o.generalLogLevel }
        let s5 := createLogger o s4
        let s6 := runScheduledTasks o s5
        setMemoryLimit o s6

/-! ## Renderings of spec sentences and concrete inputs -/

/-- Content of the file at a path, when present and readable. -/
def fileContentAt (files : List (String × DiskFile)) (p : String) : Option String :=
  match diskRead files p with
  | some (DiskFile.content c) => some c
  | _ => none

/-- Content the bundle prescribes for a top-level regular file of that
name, if any. -/
def bundleFileContent (d : TemplateDir) (f : String) : Option String :=
  (d.entries.find? (fun e => e.name == f && !e.isDir)).map (fun e => e.content)

/-- The spec's words: the installed top-level files exactly equal the
embedded bundle — every name holds exactly the bundle's content, and names
outside the bundle are absent. -/
def topLevelFilesExactlyEqual (files : List (String × DiskFile)) (target : String)
    (d : TemplateDir) : Prop :=
  ∀ f : String, fileContentAt files (pathJoin target f) = bundleFileContent d f

/-- A name free of path separators, as embedded directory entries are. -/
def noSlash (s : String) : Prop := '/' ∉ s.data

instance (s : String) : Decidable (noSlash s) :=
  inferInstanceAs (Decidable ('/' ∉ s.data))

/-- Rendering of claim C1 as stated: for every bundle, a rewrite happens
exactly on version-marker inequality; after a successful run a rewritten
bundle's installed top-level files and version marker exactly equal the
embedded bundle; a bundle whose versions already match gets zero writes. -/
def C1Claim (td : String) (efs : EmbedFS) (fl : Faults) (w : World) : Prop :=
  ∀ d ∈ efs,
    ((getCurrentTemplateVersion w.files (pathJoin (pathJoin td d.name) "version.json")
        ≠ getEmbeddedTemplateVersion efs fl d.name →
      (EnsureTemplates td efs fl w).2 = none →
      topLevelFilesExactlyEqual (EnsureTemplates td efs fl w).1.files (pathJoin td d.name) d ∧
      getCurrentTemplateVersion (EnsureTemplates td efs fl w).1.files
          (pathJoin (pathJoin td d.name) "version.json")
        = getEmbeddedTemplateVersion efs fl d.name)
    ∧ (getCurrentTemplateVersion w.files (pathJoin (pathJoin td d.name) "version.json")
        = getEmbeddedTemplateVersion efs fl d.name →
      ∀ pc ∈ (EnsureTemplates td efs fl w).1.log.drop w.log.length, ∀ f : String,
        pc.1 ≠ pathJoin (pathJoin td d.name) f))

/-- Rendering of claim C7 as stated: a second run of EnsureTemplates leaves
the on-disk state identical to the first run's and performs no writes (the
write log does not grow). -/
def C7Claim (td : String) (efs : EmbedFS) (fl : Faults) (w : World) : Prop :=
  (EnsureTemplates td efs fl (EnsureTemplates td efs fl w).1).1.files
      = (EnsureTemplates td efs fl w).1.files
    ∧ (EnsureTemplates td efs fl (EnsureTemplates td efs fl w).1).1.log
      = (EnsureTemplates td efs fl w).1.log

/-- A sample embedded bundle with a well-formed version marker. -/
def htmlBundleV2 : TemplateDir :=
  ⟨"html", [⟨"version.json", false, versionJsonOf "2"⟩, ⟨"report.html", false, "A"⟩]⟩

/-- Embedded file system holding just htmlBundleV2. -/
def efsWithMarker : EmbedFS := [htmlBundleV2]

/-- A disk holding a stale extra file inside the html install directory
and no version marker. -/
def staleWorld : World := ⟨[("INSTALL/html/stale.txt", DiskFile.content "old")], []⟩

/-- A sample embedded bundle shipped without any version.json marker. -/
def markerlessBundle : TemplateDir := ⟨"html", [⟨"report.html", false, "A"⟩]⟩

/-- Embedded file system holding just markerlessBundle. -/
def efsMarkerless : EmbedFS := [markerlessBundle]

/-- A disk whose installed html copy records version 1. -/
def versionedWorld : World :=
  ⟨[("INSTALL/html/version.json", DiskFile.content (versionJsonOf "1"))], []⟩

/-- An empty disk. -/
def emptyWorld : World := ⟨[], []⟩

/-- A disk whose installed html version marker exists but is unreadable. -/
def unreadableWorld : World :=
  ⟨[("INSTALL/html/version.json", DiskFile.unreadable)], []⟩

/-- A sample embedded bundle containing a subdirectory entry. -/
def bundleWithSubdir : TemplateDir :=
  ⟨"html", [⟨"version.json", false, versionJsonOf "2"⟩, ⟨"assets", true, ""⟩,
    ⟨"report.html", false, "A"⟩]⟩

/-- Embedded file system holding just bundleWithSubdir. -/
def efsSubdir : EmbedFS := [bundleWithSubdir]

/-- Faults making MkdirAll fail for the html target directory. -/
def mkdirFaults : Faults := ⟨["INSTALL/html"], [], []⟩

/-- Three viper-key fields agree between two process states. -/
def sameViper (a b : ProcState) : Prop :=
  a.viperCmd = b.viperCmd ∧ a.viperArgs = b.viperArgs ∧ a.viperTTY = b.viperTTY

/-! ## Helper lemmas -/

theorem sameViper_trans {a b c : ProcState} (h1 : sameViper a b) (h2 : sameViper b c) :
    sameViper a c :=
  ⟨h1.1.trans h2.1, h1.2.1.trans h2.2.1, h1.2.2.trans h2.2.2⟩

theorem createLogger_sameViper (o : PreRunOracles) (s : ProcState) :
    sameViper (createLogger o s) s := by
  unfold createLogger sameViper
  split <;> simp

theorem initGlobalConfig_sameViper (o : PreRunOracles) (s : ProcState) :
    sameViper (initGlobalConfig o s).1 s := by
  unfold initGlobalConfig sameViper
  cases o.bootstrapErr <;> cases o.loadConfigErr <;> cases o.cloudTokenErr <;>
    (first
      | (simp
         done)
      | (simp
         cases (validateConfig o.telemetry o.legacyDiagnosticsSet o.diagErr).error <;> simp))

theorem runScheduledTasks_sameViper (o : PreRunOracles) (s : ProcState) :
    sameViper (runScheduledTasks o s) s := by
  unfold runScheduledTasks sameViper
  split <;> simp

theorem setMemoryLimit_sameViper (o : PreRunOracles) (s : ProcState) :
    sameViper (setMemoryLimit o s) s := by
  unfold setMemoryLimit sameViper
  split <;> simp

theorem tail_sameViper (o : PreRunOracles) (x : ProcState) :
    sameViper (setMemoryLimit o (runScheduledTasks o (createLogger o x))) x :=
  sameViper_trans (setMemoryLimit_sameViper o (runScheduledTasks o (createLogger o x)))
    (sameViper_trans (runScheduledTasks_sameViper o (createLogger o x))
      (createLogger_sameViper o x))

theorem createLogger_env (o : PreRunOracles) (s : ProcState) :
    (createLogger o s).env = s.env := by
  unfold createLogger
  split <;> rfl

theorem createLogger_exited (o : PreRunOracles) (s : ProcState) :
    (createLogger o s).exited = s.exited := by
  unfold createLogger
  split <;> rfl

theorem runScheduledTasks_env (o : PreRunOracles) (s : ProcState) :
    (runScheduledTasks o s).env = s.env := by
  unfold runScheduledTasks
  split <;> rfl

theorem setMemoryLimit_env (o : PreRunOracles) (s : ProcState) :
    (setMemoryLimit o s).env = s.env := by
  unfold setMemoryLimit
  split <;> rfl

theorem tail_env (o : PreRunOracles) (x : ProcState) :
    (setMemoryLimit o (runScheduledTasks o (createLogger o x))).env = x.env := by
  rw [setMemoryLimit_env, runScheduledTasks_env, createLogger_env]

theorem firstSetLegacy_some {e : LogLevelEnv} {v : String} (h : firstSetLegacy e = some v) :
    e.legacy.any Option.isSome = true := by
  unfold firstSetLegacy at h
  cases hf : e.legacy.find? Option.isSome with
  | none => rw [hf] at h; simp [Option.join] at h
  | some a =>
    have ha := List.find?_some hf
    have hm := List.mem_of_find?_eq_some hf
    simp only [List.any_eq_true]
    exact ⟨a, hm, ha⟩

theorem firstSetLegacy_none {e : LogLevelEnv} (h : firstSetLegacy e = none) :
    e.legacy.any Option.isSome = false := by
  unfold firstSetLegacy at h
  cases hf : e.legacy.find? Option.isSome with
  | none =>
    have hall := List.find?_eq_none.mp hf
    simp only [List.any_eq_false]
    intro x hx
    simp [hall x hx]
  | some a =>
    have ha := List.find?_some hf
    rw [hf] at h
    cases a with
    | none => simp at ha
    | some v => simp [Option.join] at h

theorem initGlobalConfig_success (o : PreRunOracles) (s : ProcState)
    (h1 : o.bootstrapErr = none) (h2 : o.loadConfigErr = none)
    (h3 : o.cloudTokenErr = none)
    (h4 : (validateConfig o.telemetry o.legacyDiagnosticsSet o.diagErr).error = none) :
    initGlobalConfig o s =
      ({ s with installDirEnsured := true, globalConfigSet := true },
       ⟨none, o.loadConfigWarnings
          ++ (validateConfig o.telemetry o.legacyDiagnosticsSet o.diagErr).warnings⟩) := by
  unfold initGlobalConfig
  rw [h1, h2, h3]
  simp [h4]

theorem string_append_left_cancel {s a b : String} (h : s ++ a = s ++ b) : a = b := by
  apply String.ext
  have hd : (s ++ a).data = (s ++ b).data := by rw [h]
  rw [String.data_append, String.data_append] at hd
  exact List.append_cancel_left hd

theorem append_mid_inj {c : Char} :
    ∀ (a1 : List Char) {a2 b1 b2 : List Char}, c ∉ a1 → c ∉ a2 →
      a1 ++ c :: b1 = a2 ++ c :: b2 → a1 = a2 ∧ b1 = b2 := by
  intro a1
  induction a1 with
  | nil =>
    intro a2 b1 b2 _ h2 h
    cases a2 with
    | nil =>
      simp only [List.nil_append, List.cons.injEq] at h
      exact ⟨rfl, h.2⟩
    | cons y ys =>
      simp only [List.nil_append, List.cons_append, List.cons.injEq] at h
      exact absurd (h.1 ▸ List.mem_cons_self y ys) h2
  | cons x xs ih =>
    intro a2 b1 b2 h1 h2 h
    cases a2 with
    | nil =>
      simp only [List.cons_append, List.nil_append, List.cons.injEq] at h
      exact absurd (h.1.symm ▸ List.mem_cons_self x xs) h1
    | cons y ys =>
      simp only [List.cons_append, List.cons.injEq] at h
      obtain ⟨hxy, hrest⟩ := h
      have hr := ih (fun hm => h1 (List.mem_cons_of_mem x hm))
        (fun hm => h2 (List.mem_cons_of_mem y hm)) hrest
      exact ⟨by rw [hxy, hr.1], hr.2⟩

theorem pathJoin_data (a b : String) : (pathJoin a b).data = a.data ++ '/' :: b.data := by
  unfold pathJoin
  rw [String.data_append, String.data_append]
  have h1 : ("/" : String).data = ['/'] := rfl
  rw [h1, List.append_assoc, List.singleton_append]

theorem pathJoin_inj_right {t a b : String} (h : pathJoin t a = pathJoin t b) : a = b :=
  string_append_left_cancel (s := t ++ "/") h

theorem pathJoin2_inj {td n1 n2 f1 f2 : String} (h1 : noSlash n1) (h2 : noSlash n2)
    (h : pathJoin (pathJoin td n1) f1 = pathJoin (pathJoin td n2) f2) :
    n1 = n2 ∧ f1 = f2 := by
  have hd := congrArg String.data h
  rw [pathJoin_data, pathJoin_data, pathJoin_data, pathJoin_data, List.append_assoc,
    List.append_assoc] at hd
  have hmid := List.append_cancel_left hd
  simp only [List.cons_append, List.cons.injEq, true_and] at hmid
  have hr := append_mid_inj n1.data h1 h2 hmid
  exact ⟨String.ext hr.1, String.ext hr.2⟩

theorem pathJoin2_ne {td n1 n2 f1 f2 : String} (h1 : noSlash n1) (h2 : noSlash n2)
    (hne : n1 ≠ n2) :
    pathJoin (pathJoin td n1) f1 ≠ pathJoin (pathJoin td n2) f2 := by
  intro h
  exact hne (pathJoin2_inj h1 h2 h).1

theorem slash_mem_pathJoin_data (a b : String) : '/' ∈ (pathJoin a b).data := by
  rw [pathJoin_data]
  exact List.mem_append_right a.data (List.mem_cons_self '/' b.data)

theorem diskRead_diskWrite_self (files : List (String × DiskFile)) (p c : String) :
    diskRead (diskWrite files p c) p = some (DiskFile.content c) := by
  induction files with
  | nil => simp [diskWrite, diskRead]
  | cons x xs ih =>
    obtain ⟨q, f⟩ := x
    by_cases h : q = p
    · simp [diskWrite, diskRead, h]
    · have hb : (q == p) = false := by simp [h]
      simp only [diskWrite, hb, Bool.false_eq_true, if_false]
      simp only [diskRead, List.find?_cons, hb]
      exact ih

theorem diskRead_diskWrite_ne (files : List (String × DiskFile)) {p q : String} (c : String)
    (h : q ≠ p) : diskRead (diskWrite files p c) q = diskRead files q := by
  induction files with
  | nil =>
    have hb : (p == q) = false := by simp [Ne.symm h]
    simp [diskWrite, diskRead, hb]
  | cons x xs ih =>
    obtain ⟨r, f⟩ := x
    by_cases hr : r = p
    · have hb : (r == p) = true := by simp [hr]
      have hpq : (p == q) = false := by simp [Ne.symm h]
      have hrq : (r == q) = false := by simp [hr, Ne.symm h]
      simp only [diskWrite, hb, if_true]
      simp only [diskRead, List.find?_cons, hpq, hrq]
    · have hb : (r == p) = false := by simp [hr]
      simp only [diskWrite, hb, Bool.false_eq_true, if_false]
      by_cases hrq : r = q
      · have hbq : (r == q) = true := by simp [hrq]
        simp only [diskRead, List.find?_cons, hbq]
      · have hbq : (r == q) = false := by simp [hrq]
        simp only [diskRead, List.find?_cons, hbq]
        exact ih

theorem find?_key_unique {α : Type} (key : α → String) :
    ∀ {l : List α} {a : α}, ((l.map key).Pairwise (· ≠ ·)) → a ∈ l →
      l.find? (fun x => key x == key a) = some a := by
  intro l
  induction l with
  | nil => intro a _ ha; cases ha
  | cons x xs ih =>
    intro a hp ha
    rw [List.map_cons, List.pairwise_cons] at hp
    cases List.mem_cons.mp ha with
    | inl h =>
      subst h
      simp [List.find?_cons]
    | inr h =>
      have hne : key x ≠ key a := hp.1 (key a) (List.mem_map_of_mem key h)
      have hb : (key x == key a) = false := by simp [hne]
      simp only [List.find?_cons, hb]
      exact ih hp.2 h

theorem mem_key_inj {α : Type} (key : α → String) {l : List α} {a b : α}
    (hp : (l.map key).Pairwise (· ≠ ·)) (ha : a ∈ l) (hb : b ∈ l) (h : key a = key b) :
    a = b := by
  by_contra hne
  have hpl : l.Pairwise (fun x y => key x ≠ key y) := (List.pairwise_map).mp hp
  have hsym : Symmetric (fun x y : α => key x ≠ key y) :=
    fun x y hxy heq => hxy heq.symm
  exact (hpl.forall hsym ha hb hne) h

theorem getCurrentTemplateVersion_congr {f1 f2 : List (String × DiskFile)} {p : String}
    (h : diskRead f1 p = diskRead f2 p) :
    getCurrentTemplateVersion f1 p = getCurrentTemplateVersion f2 p := by
  unfold getCurrentTemplateVersion osReadFile
  rw [h]

theorem bundleNeedsSync_congr {td : String} {efs : EmbedFS} {fl : Faults} {w1 w2 : World}
    {d : TemplateDir}
    (h : diskRead w1.files (pathJoin (pathJoin td d.name) "version.json")
       = diskRead w2.files (pathJoin (pathJoin td d.name) "version.json")) :
    bundleNeedsSync td efs fl w1 d = bundleNeedsSync td efs fl w2 d := by
  unfold bundleNeedsSync
  rw [getCurrentTemplateVersion_congr h]

theorem embedReadFile_entry {efs : EmbedFS} {fl : Faults} {d : TemplateDir}
    {e : EmbeddedEntry}
    (hfind : efs.find? (fun b => b.name == d.name) = some d)
    (hdistE : (d.entries.map EmbeddedEntry.name).Pairwise (· ≠ ·))
    (he : e ∈ d.entries) (hnd : e.isDir = false)
    (hok : fl.embedReadFails.contains (embedFilePath d.name e.name) = false) :
    embedReadFile efs fl d.name e.name = some e.content := by
  unfold embedReadFile
  rw [hok, hfind]
  simp only [Bool.false_eq_true, if_false]
  rw [find?_key_unique EmbeddedEntry.name hdistE he]
  simp only []
  rw [hnd]
  simp

theorem wel_nil (efs : EmbedFS) (fl : Faults) (path target : String) (w : World) :
    writeEntriesLoop efs fl path target [] w = (w, none) := rfl

theorem wel_cons (efs : EmbedFS) (fl : Faults) (path target : String)
    (e : EmbeddedEntry) (rest : List EmbeddedEntry) (w : World) :
    writeEntriesLoop efs fl path target (e :: rest) w =
      if e.isDir then writeEntriesLoop efs fl path target rest w
      else
        match embedReadFile efs fl path e.name with
        | none => (w, some (TErr.readError (embedFilePath path e.name)))
        | some bytes =>
          match osWriteFile fl w (pathJoin target e.name) bytes with
          | none => (w, some (TErr.writeError (pathJoin target e.name)))
          | some w2 => writeEntriesLoop efs fl path target rest w2 := rfl

theorem ensureLoop_nil (efs : EmbedFS) (fl : Faults) (td : String) (w : World) :
    ensureLoop efs fl td [] w = (w, none) := rfl

theorem ensureLoop_cons (efs : EmbedFS) (fl : Faults) (td : String)
    (d : TemplateDir) (rest : List TemplateDir) (w : World) :
    ensureLoop efs fl td (d :: rest) w =
      if bundleNeedsSync td efs fl w d then
        match writeTemplate efs fl d.name (pathJoin td d.name) w with
        | (w2, some e) => (w2, some e)
        | (w2, none) => ensureLoop efs fl td rest w2
      else ensureLoop efs fl td rest w := rfl

theorem wel_success (efs : EmbedFS) (fl : Faults) (d : TemplateDir) (target : String)
    (hfind : efs.find? (fun b => b.name == d.name) = some d)
    (hdistD : (d.entries.map EmbeddedEntry.name).Pairwise (· ≠ ·)) :
    ∀ (es : List EmbeddedEntry), (∀ x ∈ es, x ∈ d.entries) →
      ((es.map EmbeddedEntry.name).Pairwise (· ≠ ·)) →
      ∀ (w w' : World), writeEntriesLoop efs fl d.name target es w = (w', none) →
      (∃ nw, w'.log = w.log ++ nw ∧
        ∀ pc ∈ nw, ∃ e ∈ es, e.isDir = false ∧ pc = (pathJoin target e.name, e.content)) ∧
      (∀ q, (∀ e ∈ es, e.isDir = false → q ≠ pathJoin target e.name) →
        diskRead w'.files q = diskRead w.files q) ∧
      (∀ e ∈ es, e.isDir = false →
        diskRead w'.files (pathJoin target e.name) = some (DiskFile.content e.content)) := by
  intro es
  induction es with
  | nil =>
    intro _ _ w w' h
    rw [wel_nil] at h
    have hw : w = w' := congrArg Prod.fst h
    subst hw
    exact ⟨⟨[], by simp, by simp⟩, fun q _ => rfl,
      fun e he => absurd he (List.not_mem_nil e)⟩
  | cons e rest ih =>
    intro hsub hdist w w' h
    rw [List.map_cons, List.pairwise_cons] at hdist
    obtain ⟨hhead, htail⟩ := hdist
    rw [wel_cons] at h
    by_cases hd : e.isDir = true
    · rw [if_pos hd] at h
      obtain ⟨⟨nw, hlog, hmem⟩, hpres, hcont⟩ :=
        ih (fun x hx => hsub x (List.mem_cons_of_mem e hx)) htail w w' h
      refine ⟨⟨nw, hlog, ?_⟩, ?_, ?_⟩
      · intro pc hpc
        obtain ⟨e', he', hnd', hpc'⟩ := hmem pc hpc
        exact ⟨e', List.mem_cons_of_mem e he', hnd', hpc'⟩
      · intro q hq
        exact hpres q (fun e' he' hnd' => hq e' (List.mem_cons_of_mem e he') hnd')
      · intro e' he' hnd'
        cases List.mem_cons.mp he' with
        | inl heq =>
          subst heq
          rw [hnd'] at hd
          exact Bool.noConfusion hd
        | inr hm => exact hcont e' hm hnd'
    · have hdf : e.isDir = false := by
        cases hb : e.isDir
        · rfl
        · exact absurd hb hd
      rw [if_neg hd] at h
      cases hread : embedReadFile efs fl d.name e.name with
      | none =>
        rw [hread] at h
        simp at h
      | some bytes =>
        rw [hread] at h
        simp only [] at h
        have hbytes : bytes = e.content := by
          cases hok : fl.embedReadFails.contains (embedFilePath d.name e.name) with
          | true =>
            unfold embedReadFile at hread
            rw [hok] at hread
            simp at hread
          | false =>
            have hent := embedReadFile_entry hfind hdistD
              (hsub e (List.mem_cons_self e rest)) hdf hok
            rw [hent] at hread
            injection hread with hx
            exact hx.symm
        subst hbytes
        cases hwrite : osWriteFile fl w (pathJoin target e.name) e.content with
        | none =>
          rw [hwrite] at h
          simp at h
        | some w2 =>
          rw [hwrite] at h
          simp only [] at h
          have hw2 : w2 = (⟨diskWrite w.files (pathJoin target e.name) e.content,
              w.log ++ [(pathJoin target e.name, e.content)]⟩ : World) := by
            cases hok2 : fl.writeFails.contains (pathJoin target e.name) with
            | true =>
              unfold osWriteFile at hwrite
              rw [hok2] at hwrite
              simp at hwrite
            | false =>
              unfold osWriteFile at hwrite
              rw [hok2] at hwrite
              simp at hwrite
              exact hwrite.symm
          obtain ⟨⟨nw', hlog', hmem'⟩, hpres', hcont'⟩ :=
            ih (fun x hx => hsub x (List.mem_cons_of_mem e hx)) htail w2 w' h
          refine ⟨⟨(pathJoin target e.name, e.content) :: nw', ?_, ?_⟩, ?_, ?_⟩
          · rw [hlog', hw2]
            simp
          · intro pc hpc
            cases List.mem_cons.mp hpc with
            | inl heq =>
              exact ⟨e, List.mem_cons_self e rest, hdf, heq⟩
            | inr hm =>
              obtain ⟨e', he', hnd', hpc'⟩ := hmem' pc hm
              exact ⟨e', List.mem_cons_of_mem e he', hnd', hpc'⟩
          · intro q hq
            have hq2 : ∀ x ∈ rest, x.isDir = false → q ≠ pathJoin target x.name :=
              fun x hx hnd => hq x (List.mem_cons_of_mem e hx) hnd
            rw [hpres' q hq2, hw2]
            exact diskRead_diskWrite_ne w.files e.content
              (hq e (List.mem_cons_self e rest) hdf)
          · intro e' he' hnd'
            cases List.mem_cons.mp he' with
            | inl heq =>
              subst heq
              have hqpres : ∀ x ∈ rest, x.isDir = false →
                  pathJoin target e'.name ≠ pathJoin target x.name := by
                intro x hx _ heq2
                exact hhead x.name (List.mem_map_of_mem EmbeddedEntry.name hx)
                  (pathJoin_inj_right heq2)
              rw [hpres' _ hqpres, hw2]
              exact diskRead_diskWrite_self w.files (pathJoin target e'.name) e'.content
            | inr hm => exact hcont' e' hm hnd'

theorem writeTemplate_success (efs : EmbedFS) (fl : Faults) (d : TemplateDir)
    (target : String) (w w' : World)
    (hfind : efs.find? (fun b => b.name == d.name) = some d)
    (hdistD : (d.entries.map EmbeddedEntry.name).Pairwise (· ≠ ·))
    (h : writeTemplate efs fl d.name target w = (w', none)) :
    (∃ nw, w'.log = w.log ++ nw ∧
      ∀ pc ∈ nw, ∃ e ∈ d.entries, e.isDir = false ∧
        pc = (pathJoin target e.name, e.content)) ∧
    (∀ q, (∀ e ∈ d.entries, e.isDir = false → q ≠ pathJoin target e.name) →
      diskRead w'.files q = diskRead w.files q) ∧
    (∀ e ∈ d.entries, e.isDir = false →
      diskRead w'.files (pathJoin target e.name) = some (DiskFile.content e.content)) := by
  unfold writeTemplate at h
  cases hmk : fl.mkdirFails.contains target with
  | true =>
    rw [hmk] at h
    simp at h
  | false =>
    rw [hmk] at h
    simp only [Bool.false_eq_true, if_false] at h
    rw [hfind] at h
    simp only [] at h
    exact wel_success efs fl d target hfind hdistD d.entries (fun x hx => hx) hdistD w w' h

theorem ensureLoop_success (td : String) (efs : EmbedFS) (fl : Faults)
    (hnames : (efs.map TemplateDir.name).Pairwise (· ≠ ·))
    (hslash : ∀ b ∈ efs, noSlash b.name)
    (hdistE : ∀ b ∈ efs, ((b.entries.map EmbeddedEntry.name).Pairwise (· ≠ ·))) :
    ∀ (bs : List TemplateDir), bs.Sublist efs →
      ∀ (w w' : World), ensureLoop efs fl td bs w = (w', none) →
      (∃ nw, w'.log = w.log ++ nw ∧
        ∀ pc ∈ nw, ∃ d2 ∈ bs, bundleNeedsSync td efs fl w d2 = true ∧
          ∃ e ∈ d2.entries, e.isDir = false ∧
            pc = (pathJoin (pathJoin td d2.name) e.name, e.content)) ∧
      (∀ q, (∀ d2 ∈ bs, bundleNeedsSync td efs fl w d2 = true →
          ∀ e ∈ d2.entries, q ≠ pathJoin (pathJoin td d2.name) e.name) →
        diskRead w'.files q = diskRead w.files q) ∧
      (∀ d2 ∈ bs, bundleNeedsSync td efs fl w d2 = true →
        ∀ e ∈ d2.entries, e.isDir = false →
          diskRead w'.files (pathJoin (pathJoin td d2.name) e.name)
            = some (DiskFile.content e.content)) := by
  intro bs
  induction bs with
  | nil =>
    intro _ w w' h
    rw [ensureLoop_nil] at h
    have hw : w = w' := congrArg Prod.fst h
    subst hw
    exact ⟨⟨[], by simp, by simp⟩, fun q _ => rfl,
      fun d2 hd2 => absurd hd2 (List.not_mem_nil d2)⟩
  | cons d rest ih =>
    intro hsub w w' h
    have hd_mem : d ∈ efs := hsub.subset (List.mem_cons_self d rest)
    have hrest_sub : rest.Sublist efs :=
      (List.sublist_cons_self d rest).trans hsub
    have hname_head : ∀ d2 ∈ rest, d.name ≠ d2.name := by
      have hp : ((d :: rest).map TemplateDir.name).Pairwise (· ≠ ·) :=
        hnames.sublist (hsub.map TemplateDir.name)
      rw [List.map_cons, List.pairwise_cons] at hp
      intro d2 hd2
      exact hp.1 d2.name (List.mem_map_of_mem TemplateDir.name hd2)
    rw [ensureLoop_cons] at h
    by_cases hg : bundleNeedsSync td efs fl w d = true
    · rw [if_pos hg] at h
      cases hwt : writeTemplate efs fl d.name (pathJoin td d.name) w with
      | mk w1 r =>
        rw [hwt] at h
        cases r with
        | some er => simp at h
        | none =>
          simp only [] at h
          have hfind : efs.find? (fun b => b.name == d.name) = some d :=
            find?_key_unique TemplateDir.name hnames hd_mem
          obtain ⟨⟨nw1, hlog1, hmem1⟩, hpres1, hcont1⟩ :=
            writeTemplate_success efs fl d (pathJoin td d.name) w w1 hfind
              (hdistE d hd_mem) hwt
          have hguard : ∀ d2 ∈ rest,
              bundleNeedsSync td efs fl w1 d2 = bundleNeedsSync td efs fl w d2 := by
            intro d2 hd2
            apply bundleNeedsSync_congr
            apply hpres1
            intro e _ _ heq
            exact (pathJoin2_ne (hslash d2 (hrest_sub.subset hd2)) (hslash d hd_mem)
              (fun hnn => hname_head d2 hd2 hnn.symm)) heq
          obtain ⟨⟨nw2, hlog2, hmem2⟩, hpres2, hcont2⟩ := ih hrest_sub w1 w' h
          refine ⟨⟨nw1 ++ nw2, ?_, ?_⟩, ?_, ?_⟩
          · rw [hlog2, hlog1, List.append_assoc]
          · intro pc hpc
            cases List.mem_append.mp hpc with
            | inl h1 =>
              obtain ⟨e, he, hnd, hpc'⟩ := hmem1 pc h1
              exact ⟨d, List.mem_cons_self d rest, hg, e, he, hnd, hpc'⟩
            | inr h2 =>
              obtain ⟨d2, hd2, hg2, e, he, hnd, hpc'⟩ := hmem2 pc h2
              rw [hguard d2 hd2] at hg2
              exact ⟨d2, List.mem_cons_of_mem d hd2, hg2, e, he, hnd, hpc'⟩
          · intro q hq
            have hq2 : ∀ d2 ∈ rest, bundleNeedsSync td efs fl w1 d2 = true →
                ∀ e ∈ d2.entries, q ≠ pathJoin (pathJoin td d2.name) e.name := by
              intro d2 hd2 hg2
              rw [hguard d2 hd2] at hg2
              exact hq d2 (List.mem_cons_of_mem d hd2) hg2
            rw [hpres2 q hq2]
            exact hpres1 q
              (fun e he _ => hq d (List.mem_cons_self d rest) hg e he)
          · intro d2 hd2 hg2 e he hnd
            cases List.mem_cons.mp hd2 with
            | inl heq =>
              subst heq
              have hq : ∀ d3 ∈ rest, bundleNeedsSync td efs fl w1 d3 = true →
                  ∀ e3 ∈ d3.entries,
                    pathJoin (pathJoin td d2.name) e.name
                      ≠ pathJoin (pathJoin td d3.name) e3.name := by
                intro d3 hd3 _ e3 _
                exact pathJoin2_ne (hslash d2 hd_mem) (hslash d3 (hrest_sub.subset hd3))
                  (hname_head d3 hd3)
              rw [hpres2 _ hq]
              exact hcont1 e he hnd
            | inr hm =>
              rw [← hguard d2 hm] at hg2
              exact hcont2 d2 hm hg2 e he hnd
    · rw [if_neg hg] at h
      obtain ⟨⟨nw2, hlog2, hmem2⟩, hpres2, hcont2⟩ := ih hrest_sub w w' h
      refine ⟨⟨nw2, hlog2, ?_⟩, ?_, ?_⟩
      · intro pc hpc
        obtain ⟨d2, hd2, hg2, e, he, hnd, hpc'⟩ := hmem2 pc hpc
        exact ⟨d2, List.mem_cons_of_mem d hd2, hg2, e, he, hnd, hpc'⟩
      · intro q hq
        exact hpres2 q (fun d2 hd2 hg2 => hq d2 (List.mem_cons_of_mem d hd2) hg2)
      · intro d2 hd2 hg2 e he hnd
        cases List.mem_cons.mp hd2 with
        | inl heq =>
          subst heq
          exact absurd hg2 hg
        | inr hm => exact hcont2 d2 hm hg2 e he hnd

/-! ## Claim theorems -/

/-- Claim C2: when a background task runner was launched (the channel is
non-nil), postRunHook blocks at most the fixed 100ms timeout; if the
channel has not signaled within that window, the task context is canceled
and the hook returns. -/
theorem postRunHook_bounded_wait (t : Nat) :
    postRunElapsed (postRunHook (some t)) ≤ postRunTimeoutMs ∧
    (postRunTimeoutMs ≤ t →
      postRunHook (some t) = PostRunResult.canceledAfterTimeout ∧
      postRunCanceled (postRunHook (some t)) = true) := by
  constructor
  · by_cases h : t < postRunTimeoutMs <;>
      (simp [postRunHook, postRunElapsed, h]
       try omega)
  · intro h
    have hnot : ¬ t < postRunTimeoutMs := by omega
    simp [postRunHook, hnot, postRunCanceled]

theorem postRunHook_bounded_wait_witness :
    postRunElapsed (postRunHook (some 250)) ≤ postRunTimeoutMs ∧
    postRunHook (some 250) = PostRunResult.canceledAfterTimeout :=
  ⟨(postRunHook_bounded_wait 250).1, ((postRunHook_bounded_wait 250).2 (by decide)).1⟩

/-- Claim C4: an out-of-set telemetry value makes validateConfig fail with
a descriptive fatal error naming the bad value, while presence of the
deprecated diagnostics-level environment variable alone yields only a
warning and no error. -/
theorem validateConfig_telemetry_fatal_legacy_warning
    (telemetry : String) (legacySet : Bool) (diagErr : Option String) :
    (TelemetryLevels.contains telemetry = false →
      (validateConfig telemetry legacySet diagErr).error =
        some ("invalid value of telemetry (" ++ telemetry ++ "), must be one of: "
          ++ String.intercalate ", " TelemetryLevels)) ∧
    (TelemetryLevels.contains telemetry = true → diagErr = none →
      (validateConfig telemetry legacySet diagErr).error = none ∧
      (validateConfig telemetry legacySet diagErr).warnings =
        (if legacySet then [legacyDiagnosticsWarning] else [])) := by
  constructor
  · intro h
    unfold validateConfig
    rw [h]
    simp
  · intro h hd
    unfold validateConfig
    rw [h, hd]
    simp

theorem validateConfig_telemetry_fatal_legacy_warning_witness :
    (validateConfig "junk" true none).error =
      some ("invalid value of telemetry (" ++ "junk" ++ "), must be one of: "
        ++ String.intercalate ", " TelemetryLevels) ∧
    (validateConfig "info" true none).error = none ∧
    (validateConfig "info" true none).warnings = [legacyDiagnosticsWarning] := by
  refine ⟨(validateConfig_telemetry_fatal_legacy_warning "junk" true none).1 (by decide), ?_, ?_⟩
  · exact ((validateConfig_telemetry_fatal_legacy_warning "info" true none).2
      (by decide) rfl).1
  · exact (((validateConfig_telemetry_fatal_legacy_warning "info" true none).2
      (by decide) rfl).2).trans (by decide)

/-- Claim C5: for the completion command, preRunHook only records the three
command-metadata keys and returns: no install-directory creation, no
configuration load, and no other state change. -/
theorem preRunHook_completion_short_circuit
    (c : CmdInput) (o : PreRunOracles) (s : ProcState) (h : c.name = "completion") :
    preRunHook c o s =
      { s with viperCmd := some c.name, viperArgs := some c.args,
               viperTTY := some c.tty } ∧
    (preRunHook c o s).installDirEnsured = s.installDirEnsured ∧
    (preRunHook c o s).globalConfigSet = s.globalConfigSet := by
  have hb : (c.name == "completion") = true := by simp [h]
  refine ⟨?_, ?_, ?_⟩ <;> simp [preRunHook, hb, recordCmdKeys]

theorem preRunHook_completion_short_circuit_witness :
    preRunHook ⟨"completion", ["arg"], true⟩
        ⟨false, none, none, [], none, "info", false, none, none, 0⟩
        ⟨none, none, none, ⟨none, []⟩, false, false, 0, false, false, false⟩ =
      { viperCmd := some "completion", viperArgs := some ["arg"], viperTTY := some true,
        env := ⟨none, []⟩, installDirEnsured := false, globalConfigSet := false,
        loggerCreations := 0, tasksStarted := false, memoryLimitSet := false,
        exited := false } :=
  (preRunHook_completion_short_circuit ⟨"completion", ["arg"], true⟩
    ⟨false, none, none, [], none, "info", false, none, none, 0⟩
    ⟨none, none, none, ⟨none, []⟩, false, false, 0, false, false, false⟩ rfl).1

/-- Claim C10: for every command, completion included, preRunHook records
the active command, its arguments, and the terminal-TTY flag into the
global configuration store; the completion short-circuit happens only
after these keys are set. -/
theorem preRunHook_records_command_metadata
    (c : CmdInput) (o : PreRunOracles) (s : ProcState) :
    (preRunHook c o s).viperCmd = some c.name ∧
    (preRunHook c o s).viperArgs = some c.args ∧
    (preRunHook c o s).viperTTY = some c.tty := by
  have main : sameViper (preRunHook c o s) (recordCmdKeys c s) := by
    unfold preRunHook
    by_cases hc : (c.name == "completion") = true
    · simp only [hc, if_true]
      exact ⟨rfl, rfl, rfl⟩
    · simp only [hc, Bool.false_eq_true, if_false]
      generalize recordCmdKeys c s = s2
      have h2 := createLogger_sameViper o s2
      have h3 := initGlobalConfig_sameViper o (createLogger o s2)
      have h23 := sameViper_trans h3 h2
      by_cases he : (initGlobalConfig o (createLogger o s2)).1.exited
      · simp only [he, if_true]
        exact h23
      · simp only [he, Bool.false_eq_true, if_false]
        cases herr : (initGlobalConfig o (createLogger o s2)).2.error with
        | some e => exact h23
        | none =>
          exact sameViper_trans (tail_sameViper o _) (sameViper_trans ⟨rfl, rfl, rfl⟩ h23)
  exact ⟨main.1, main.2.1, main.2.2⟩

/-- Claim C6: every version-marker read maps a missing file, an unreadable
file, or malformed JSON to the version string empty, on disk and embedded
alike; hence a bundle with an unreadable on-disk marker is resynced
exactly when the embedded marker does not also resolve to empty. -/
theorem templateVersion_read_failures_empty :
    (∀ (files : List (String × DiskFile)) (p : String),
      (diskRead files p = none → getCurrentTemplateVersion files p = "") ∧
      (diskRead files p = some DiskFile.unreadable →
        getCurrentTemplateVersion files p = "") ∧
      (∀ s, diskRead files p = some (DiskFile.content s) → parseVersionJson s = none →
        getCurrentTemplateVersion files p = "")) ∧
    (∀ (efs : EmbedFS) (fl : Faults) (dir : String),
      (embedReadFile efs fl dir "version.json" = none →
        getEmbeddedTemplateVersion efs fl dir = "") ∧
      (∀ s, embedReadFile efs fl dir "version.json" = some s → parseVersionJson s = none →
        getEmbeddedTemplateVersion efs fl dir = "")) ∧
    (∀ (td : String) (efs : EmbedFS) (fl : Faults) (w : World) (d : TemplateDir),
      diskRead w.files (pathJoin (pathJoin td d.name) "version.json")
          = some DiskFile.unreadable →
      (bundleNeedsSync td efs fl w d = true ↔
        getEmbeddedTemplateVersion efs fl d.name ≠ "")) := by
  refine ⟨fun files p => ⟨?_, ?_, ?_⟩, fun efs fl dir => ⟨?_, ?_⟩,
    fun td efs fl w d h => ?_⟩
  · intro h
    simp [getCurrentTemplateVersion, osReadFile, h]
  · intro h
    simp [getCurrentTemplateVersion, osReadFile, h]
  · intro s h hp
    simp [getCurrentTemplateVersion, osReadFile, h, hp]
  · intro h
    simp [getEmbeddedTemplateVersion, h]
  · intro s h hp
    simp [getEmbeddedTemplateVersion, h, hp]
  · have hc : getCurrentTemplateVersion w.files
        (pathJoin (pathJoin td d.name) "version.json") = "" := by
      simp [getCurrentTemplateVersion, osReadFile, h]
    rw [bundleNeedsSync, hc, bne_iff_ne]
    exact ne_comm

theorem templateVersion_read_failures_empty_witness :
    getCurrentTemplateVersion emptyWorld.files "INSTALL/html/version.json" = "" ∧
    getCurrentTemplateVersion unreadableWorld.files "INSTALL/html/version.json" = "" ∧
    getCurrentTemplateVersion [("p", DiskFile.content "garbage")] "p" = "" ∧
    bundleNeedsSync "INSTALL" efsWithMarker noFaults unreadableWorld htmlBundleV2 = true := by
  refine ⟨(templateVersion_read_failures_empty.1 emptyWorld.files
      "INSTALL/html/version.json").1 rfl,
    (templateVersion_read_failures_empty.1 unreadableWorld.files
      "INSTALL/html/version.json").2.1 (by decide),
    (templateVersion_read_failures_empty.1 [("p", DiskFile.content "garbage")] "p").2.2
      "garbage" (by decide) (by decide),
    (templateVersion_read_failures_empty.2.2 "INSTALL" efsWithMarker noFaults
      unreadableWorld htmlBundleV2 (by decide)).mpr (by decide)⟩

/-- Claim C8: any I/O error while copying a bundle — directory creation,
reading an embedded file, or writing a target file — aborts that bundle's
copy at once and makes the sync loop return that very error, skipping all
later bundles; no per-file success is reported. -/
theorem sync_error_aborts :
    (∀ (efs : EmbedFS) (fl : Faults) (path target : String) (w : World),
      fl.mkdirFails.contains target = true →
      writeTemplate efs fl path target w = (w, some (TErr.mkdirError target))) ∧
    (∀ (efs : EmbedFS) (fl : Faults) (path target : String) (e : EmbeddedEntry)
        (rest : List EmbeddedEntry) (w : World),
      e.isDir = false → embedReadFile efs fl path e.name = none →
      writeEntriesLoop efs fl path target (e :: rest) w =
        (w, some (TErr.readError (embedFilePath path e.name)))) ∧
    (∀ (efs : EmbedFS) (fl : Faults) (path target : String) (e : EmbeddedEntry)
        (rest : List EmbeddedEntry) (w : World) (bytes : String),
      e.isDir = false → embedReadFile efs fl path e.name = some bytes →
      fl.writeFails.contains (pathJoin target e.name) = true →
      writeEntriesLoop efs fl path target (e :: rest) w =
        (w, some (TErr.writeError (pathJoin target e.name)))) ∧
    (∀ (efs : EmbedFS) (fl : Faults) (td : String) (d : TemplateDir)
        (rest : List TemplateDir) (w w1 : World) (er : TErr),
      bundleNeedsSync td efs fl w d = true →
      writeTemplate efs fl d.name (pathJoin td d.name) w = (w1, some er) →
      ensureLoop efs fl td (d :: rest) w = (w1, some er)) := by
  refine ⟨?_, ?_, ?_, ?_⟩
  · intro efs fl path target w h
    unfold writeTemplate
    rw [h]
    simp
  · intro efs fl path target e rest w hd h
    simp [writeEntriesLoop, hd, h]
  · intro efs fl path target e rest w bytes hd h hw
    have hos : osWriteFile fl w (pathJoin target e.name) bytes = none := by
      unfold osWriteFile
      rw [hw]
      simp
    simp [writeEntriesLoop, hd, h, hos]
  · intro efs fl td d rest w w1 er hg hw
    simp [ensureLoop, hg, hw]

theorem sync_error_aborts_witness :
    EnsureTemplates "INSTALL" efsWithMarker mkdirFaults emptyWorld
      = (emptyWorld, some (TErr.mkdirError "INSTALL/html")) :=
  sync_error_aborts.2.2.2 efsWithMarker mkdirFaults "INSTALL" htmlBundleV2 []
    emptyWorld emptyWorld (TErr.mkdirError "INSTALL/html") (by decide)
    (sync_error_aborts.1 efsWithMarker mkdirFaults "html" "INSTALL/html" emptyWorld
      (by decide))

/-- Claim C3: during preRunHook, the resolved log level is written into the
process environment exactly when it differs from what the environment
already specifies (that is, when no log-level variable is set but the
merged general options carry one); otherwise the environment is left
unchanged.  The second part ties the environment step to a full
non-completion, error-free preRunHook run. -/
theorem preRunHook_logLevel_propagation :
    (∀ (e : LogLevelEnv) (g : Option String),
      (effectiveLogLevel e g ≠ envSpecifiedLogLevel e →
        (setLogLevelEnvStep e g).primary = effectiveLogLevel e g ∧
        (setLogLevelEnvStep e g).legacy = e.legacy) ∧
      (effectiveLogLevel e g = envSpecifiedLogLevel e → setLogLevelEnvStep e g = e)) ∧
    (∀ (c : CmdInput) (o : PreRunOracles) (s : ProcState),
      c.name ≠ "completion" → s.exited = false →
      o.bootstrapErr = none → o.loadConfigErr = none → o.cloudTokenErr = none →
      (validateConfig o.telemetry o.legacyDiagnosticsSet o.diagErr).error = none →
      (preRunHook c o s).env = setLogLevelEnvStep s.env o.generalLogLevel) := by
  constructor
  · intro e g
    cases hp : e.primary with
    | some v =>
      have hes : envSpecifiedLogLevel e = some v := by
        simp [envSpecifiedLogLevel, hp]
      have hef : effectiveLogLevel e g = some v := by
        simp [effectiveLogLevel, hes]
      constructor
      · intro h
        exact absurd (hef.trans hes.symm) h
      · intro _
        simp [setLogLevelEnvStep, logLevelNeedsReset, envLogLevelSet, hp]
    | none =>
      cases hl : firstSetLegacy e with
      | some v =>
        have hes : envSpecifiedLogLevel e = some v := by
          simp [envSpecifiedLogLevel, hp, hl]
        have hef : effectiveLogLevel e g = some v := by
          simp [effectiveLogLevel, hes]
        constructor
        · intro h
          exact absurd (hef.trans hes.symm) h
        · intro _
          simp [setLogLevelEnvStep, logLevelNeedsReset, envLogLevelSet, hp,
            firstSetLegacy_some hl]
      | none =>
        have hes : envSpecifiedLogLevel e = none := by
          simp [envSpecifiedLogLevel, hp, hl]
        have hef : effectiveLogLevel e g = g := by
          simp [effectiveLogLevel, hes]
        have hset : envLogLevelSet e = false := by
          simp [envLogLevelSet, hp, firstSetLegacy_none hl]
        cases g with
        | none =>
          constructor
          · intro h
            exact absurd (hef.trans hes.symm) h
          · intro _
            simp [setLogLevelEnvStep, logLevelNeedsReset, hset]
        | some gv =>
          constructor
          · intro _
            have : viperLogLevel e (some gv) = gv := by
              simp [viperLogLevel, hp, hl]
            simp [setLogLevelEnvStep, logLevelNeedsReset, hset, this, hef]
          · intro h
            rw [hef, hes] at h
            cases h
  · intro c o s hname hex h1 h2 h3 h4
    have hb : (c.name == "completion") = false := by
      simp [hname]
    unfold preRunHook
    simp only [hb, Bool.false_eq_true, if_false]
    rw [initGlobalConfig_success o (createLogger o (recordCmdKeys c s)) h1 h2 h3 h4]
    have hexit : (createLogger o (recordCmdKeys c s)).exited = false := by
      rw [createLogger_exited]
      exact hex
    simp only [hexit, Bool.false_eq_true, if_false]
    rw [tail_env]
    show setLogLevelEnvStep (createLogger o (recordCmdKeys c s)).env o.generalLogLevel
      = setLogLevelEnvStep s.env o.generalLogLevel
    rw [createLogger_env]
    rfl

theorem preRunHook_logLevel_propagation_witness :
    (setLogLevelEnvStep ⟨none, []⟩ (some "debug")).primary
        = effectiveLogLevel ⟨none, []⟩ (some "debug") ∧
    setLogLevelEnvStep ⟨some "trace", []⟩ (some "debug") = ⟨some "trace", []⟩ ∧
    (preRunHook ⟨"server", [], false⟩
        ⟨false, none, none, [], some "debug", "info", false, none, none, 0⟩
        ⟨none, none, none, ⟨none, []⟩, false, false, 0, false, false, false⟩).env
      = setLogLevelEnvStep ⟨none, []⟩ (some "debug") := by
  refine ⟨((preRunHook_logLevel_propagation.1 ⟨none, []⟩ (some "debug")).1 (by decide)).1,
    (preRunHook_logLevel_propagation.1 ⟨some "trace", []⟩ (some "debug")).2 (by decide),
    preRunHook_logLevel_propagation.2 ⟨"server", [], false⟩
      ⟨false, none, none, [], some "debug", "info", false, none, none, 0⟩
      ⟨none, none, none, ⟨none, []⟩, false, false, 0, false, false, false⟩
      (by decide) rfl rfl rfl rfl (by decide)⟩

theorem wel_log_shape (efs : EmbedFS) (fl : Faults) (path target : String) :
    ∀ (es : List EmbeddedEntry) (w : World),
      ∃ nw, ((writeEntriesLoop efs fl path target es w).1).log = w.log ++ nw ∧
        ∀ pc ∈ nw, ∃ e ∈ es, e.isDir = false ∧ pc.1 = pathJoin target e.name := by
  intro es
  induction es with
  | nil =>
    intro w
    rw [wel_nil]
    exact ⟨[], by simp, by simp⟩
  | cons e rest ih =>
    intro w
    rw [wel_cons]
    by_cases hd : e.isDir = true
    · rw [if_pos hd]
      obtain ⟨nw, hlog, hmem⟩ := ih w
      refine ⟨nw, hlog, ?_⟩
      intro pc hpc
      obtain ⟨e', he', hnd', hp'⟩ := hmem pc hpc
      exact ⟨e', List.mem_cons_of_mem e he', hnd', hp'⟩
    · have hdf : e.isDir = false := by
        cases hb : e.isDir
        · rfl
        · exact absurd hb hd
      rw [if_neg hd]
      cases hread : embedReadFile efs fl path e.name with
      | none => exact ⟨[], by simp, by simp⟩
      | some bytes =>
        simp only []
        cases hw : osWriteFile fl w (pathJoin target e.name) bytes with
        | none =>
          simp only [hw]
          exact ⟨[], by simp, by simp⟩
        | some w2 =>
          simp only [hw]
          obtain ⟨nw, hlog, hmem⟩ := ih w2
          have hw2log : w2.log = w.log ++ [(pathJoin target e.name, bytes)] := by
            cases hok : fl.writeFails.contains (pathJoin target e.name) with
            | true =>
              unfold osWriteFile at hw
              rw [hok] at hw
              simp at hw
            | false =>
              unfold osWriteFile at hw
              rw [hok] at hw
              simp at hw
              rw [← hw]
          refine ⟨(pathJoin target e.name, bytes) :: nw, ?_, ?_⟩
          · rw [hlog, hw2log]
            simp
          · intro pc hpc
            cases List.mem_cons.mp hpc with
            | inl heq =>
              subst heq
              exact ⟨e, List.mem_cons_self e rest, hdf, rfl⟩
            | inr hm =>
              obtain ⟨e', he', hnd', hp'⟩ := hmem pc hm
              exact ⟨e', List.mem_cons_of_mem e he', hnd', hp'⟩

theorem marker_eq_after_success (td : String) (efs : EmbedFS) (fl : Faults)
    (w w' : World) (d : TemplateDir) (m : EmbeddedEntry)
    (hnames : (efs.map TemplateDir.name).Pairwise (· ≠ ·))
    (hslash : ∀ b ∈ efs, noSlash b.name)
    (hdistE : ∀ b ∈ efs, ((b.entries.map EmbeddedEntry.name).Pairwise (· ≠ ·)))
    (hrun : EnsureTemplates td efs fl w = (w', none)) (hd : d ∈ efs)
    (hm : m ∈ d.entries) (hmn : m.name = "version.json") (hmd : m.isDir = false)
    (hok : fl.embedReadFails.contains (embedFilePath d.name "version.json") = false) :
    getCurrentTemplateVersion w'.files (pathJoin (pathJoin td d.name) "version.json")
      = getEmbeddedTemplateVersion efs fl d.name := by
  obtain ⟨⟨nw, hlog, hmem⟩, hpres, hcont⟩ :=
    ensureLoop_success td efs fl hnames hslash hdistE efs (List.Sublist.refl efs) w w' hrun
  have hfind : efs.find? (fun b => b.name == d.name) = some d :=
    find?_key_unique TemplateDir.name hnames hd
  have hok' : fl.embedReadFails.contains (embedFilePath d.name m.name) = false := by
    rw [hmn]
    exact hok
  have hent := embedReadFile_entry hfind (hdistE d hd) hm hmd hok'
  rw [hmn] at hent
  have hemb : getEmbeddedTemplateVersion efs fl d.name
      = (match parseVersionJson m.content with
         | none => ""
         | some v => v) := by
    unfold getEmbeddedTemplateVersion
    rw [hent]
  by_cases hg : bundleNeedsSync td efs fl w d = true
  · have hc := hcont d hd hg m hm hmd
    rw [hmn] at hc
    unfold getCurrentTemplateVersion osReadFile
    rw [hc, hemb]
  · have hpq : ∀ d2 ∈ efs, bundleNeedsSync td efs fl w d2 = true →
        ∀ e ∈ d2.entries, pathJoin (pathJoin td d.name) "version.json"
          ≠ pathJoin (pathJoin td d2.name) e.name := by
      intro d2 hd2 hg2 e _ heq
      have hni := pathJoin2_inj (hslash d hd) (hslash d2 hd2) heq
      have hdd : d = d2 := mem_key_inj TemplateDir.name hnames hd hd2 hni.1
      rw [← hdd] at hg2
      exact hg hg2
    have hread := hpres (pathJoin (pathJoin td d.name) "version.json") hpq
    rw [getCurrentTemplateVersion_congr hread]
    have hgf : bundleNeedsSync td efs fl w d = false := by
      cases hb : bundleNeedsSync td efs fl w d
      · rfl
      · exact absurd hb hg
    unfold bundleNeedsSync at hgf
    exact bne_eq_false_iff_eq.mp hgf

theorem ensureLoop_all_skip (efs : EmbedFS) (fl : Faults) (td : String) :
    ∀ (bs : List TemplateDir) (w : World),
      (∀ d ∈ bs, bundleNeedsSync td efs fl w d = false) →
      ensureLoop efs fl td bs w = (w, none) := by
  intro bs
  induction bs with
  | nil => intro w _; rfl
  | cons d rest ih =>
    intro w hall
    rw [ensureLoop_cons]
    have hg : bundleNeedsSync td efs fl w d = false := hall d (List.mem_cons_self d rest)
    simp only [hg, Bool.false_eq_true, if_false]
    exact ih w (fun d2 hd2 => hall d2 (List.mem_cons_of_mem d hd2))

/-- Claim C9: writeTemplate copies only the top-level entries of the
embedded bundle directory: every write lands at the joined path of a
top-level regular entry, directory entries are skipped, and no path inside
a subdirectory is ever written. -/
theorem writeTemplate_skips_subdirectories
    (efs : EmbedFS) (fl : Faults) (d : TemplateDir) (target : String) (w : World)
    (hfind : efs.find? (fun b => b.name == d.name) = some d)
    (hslashE : ∀ e ∈ d.entries, noSlash e.name) :
    ∃ nw, ((writeTemplate efs fl d.name target w).1).log = w.log ++ nw ∧
      (∀ pc ∈ nw, ∃ e ∈ d.entries, e.isDir = false ∧ pc.1 = pathJoin target e.name) ∧
      (∀ pc ∈ nw, ∀ e ∈ d.entries, e.isDir = true →
        ∀ f : String, pc.1 ≠ pathJoin (pathJoin target e.name) f) := by
  have main : ∃ nw, ((writeTemplate efs fl d.name target w).1).log = w.log ++ nw ∧
      ∀ pc ∈ nw, ∃ e ∈ d.entries, e.isDir = false ∧ pc.1 = pathJoin target e.name := by
    unfold writeTemplate
    cases hmk : fl.mkdirFails.contains target with
    | true =>
      simp only [if_true]
      exact ⟨[], by simp, by simp⟩
    | false =>
      simp only [Bool.false_eq_true, if_false]
      rw [hfind]
      simp only []
      exact wel_log_shape efs fl d.name target d.entries w
  obtain ⟨nw, hlog, hmem⟩ := main
  refine ⟨nw, hlog, hmem, ?_⟩
  intro pc hpc e he _ f heq
  obtain ⟨e', he', _, hp'⟩ := hmem pc hpc
  rw [hp'] at heq
  have hdata := congrArg String.data heq
  rw [pathJoin_data, pathJoin_data, pathJoin_data, List.append_assoc] at hdata
  have hmid := List.append_cancel_left hdata
  simp only [List.cons_append, List.cons.injEq, true_and] at hmid
  have hsl : '/' ∈ e'.name.data := by
    rw [hmid]
    exact List.mem_append_right _ (List.mem_cons_self _ _)
  exact hslashE e' he' hsl

theorem writeTemplate_skips_subdirectories_witness :
    ∃ nw, ((writeTemplate efsSubdir noFaults "html" "INSTALL/html" emptyWorld).1).log
        = emptyWorld.log ++ nw ∧
      (∀ pc ∈ nw, ∃ e ∈ bundleWithSubdir.entries, e.isDir = false ∧
        pc.1 = pathJoin "INSTALL/html" e.name) ∧
      (∀ pc ∈ nw, ∀ e ∈ bundleWithSubdir.entries, e.isDir = true →
        ∀ f : String, pc.1 ≠ pathJoin (pathJoin "INSTALL/html" e.name) f) :=
  writeTemplate_skips_subdirectories efsSubdir noFaults bundleWithSubdir "INSTALL/html"
    emptyWorld (by decide) (by decide)

/-- Claim C1 as stated is false: a successful rewrite does not make the
installed top-level files exactly equal the embedded bundle, because a
pre-existing stale file in the installed directory that is not part of the
bundle survives the rewrite. -/
theorem ensureTemplates_exact_sync_counterexample :
    ¬ C1Claim "INSTALL" efsWithMarker noFaults staleWorld := by
  intro h
  have h1 := (h htmlBundleV2 (by decide)).1 (by decide) (by decide)
  exact absurd (h1.1 "stale.txt") (by decide)

/-- Claim C1, amended: a bundle whose versions match gets zero writes; a
bundle whose versions differ has, after a successful run, every top-level
regular embedded file installed with identical content; and whenever the
embedded marker is a readable top-level regular file, the installed
version marker resolves equal to the embedded one afterwards.  Files
already installed that are not part of the bundle may survive. -/
theorem ensureTemplates_sync_amended
    (td : String) (efs : EmbedFS) (fl : Faults) (w w' : World) (d : TemplateDir)
    (hnames : (efs.map TemplateDir.name).Pairwise (· ≠ ·))
    (hslash : ∀ b ∈ efs, noSlash b.name)
    (hdistE : ∀ b ∈ efs, ((b.entries.map EmbeddedEntry.name).Pairwise (· ≠ ·)))
    (hrun : EnsureTemplates td efs fl w = (w', none)) (hd : d ∈ efs) :
    (bundleNeedsSync td efs fl w d = false →
      ∀ pc ∈ w'.log.drop w.log.length, ∀ f : String,
        pc.1 ≠ pathJoin (pathJoin td d.name) f) ∧
    (bundleNeedsSync td efs fl w d = true →
      ∀ e ∈ d.entries, e.isDir = false →
        fileContentAt w'.files (pathJoin (pathJoin td d.name) e.name) = some e.content) ∧
    (∀ m ∈ d.entries, m.name = "version.json" → m.isDir = false →
      fl.embedReadFails.contains (embedFilePath d.name "version.json") = false →
      getCurrentTemplateVersion w'.files (pathJoin (pathJoin td d.name) "version.json")
        = getEmbeddedTemplateVersion efs fl d.name) := by
  obtain ⟨⟨nw, hlog, hmem⟩, hpres, hcont⟩ :=
    ensureLoop_success td efs fl hnames hslash hdistE efs (List.Sublist.refl efs) w w' hrun
  refine ⟨?_, ?_, ?_⟩
  · intro hg pc hpc f heq
    rw [hlog, List.drop_left] at hpc
    obtain ⟨d2, hd2, hg2, e, he, hnd, hpc'⟩ := hmem pc hpc
    rw [hpc'] at heq
    have hni := pathJoin2_inj (hslash d2 hd2) (hslash d hd) heq
    have hdd : d2 = d := mem_key_inj TemplateDir.name hnames hd2 hd hni.1
    rw [hdd, hg] at hg2
    exact Bool.noConfusion hg2
  · intro hg e he hnd
    have hc := hcont d hd hg e he hnd
    unfold fileContentAt
    rw [hc]
  · intro m hm hmn hmd hok
    exact marker_eq_after_success td efs fl w w' d m hnames hslash hdistE hrun hd
      hm hmn hmd hok

theorem ensureTemplates_sync_amended_witness :
    fileContentAt (EnsureTemplates "INSTALL" efsWithMarker noFaults staleWorld).1.files
        (pathJoin (pathJoin "INSTALL" "html") "report.html") = some "A" ∧
    getCurrentTemplateVersion
        (EnsureTemplates "INSTALL" efsWithMarker noFaults staleWorld).1.files
        (pathJoin (pathJoin "INSTALL" "html") "version.json")
      = getEmbeddedTemplateVersion efsWithMarker noFaults "html" := by
  have happ := ensureTemplates_sync_amended "INSTALL" efsWithMarker noFaults staleWorld
    (EnsureTemplates "INSTALL" efsWithMarker noFaults staleWorld).1 htmlBundleV2
    (by decide) (by decide) (by decide) (by decide) (by decide)
  exact ⟨happ.2.1 (by decide) ⟨"report.html", false, "A"⟩ (by decide) rfl,
    happ.2.2 ⟨"version.json", false, versionJsonOf "2"⟩ (by decide) rfl rfl (by decide)⟩

/-- Claim C7 as stated is false: with a bundle shipped without an embedded
version marker and an installed copy recording version 1, the versions
never come to match, so the second run performs writes again (the write
log grows), even though the on-disk files are unchanged. -/
theorem ensureTemplates_idempotence_counterexample :
    ¬ C7Claim "INSTALL" efsMarkerless noFaults versionedWorld := by
  unfold C7Claim
  decide

/-- Claim C7, amended: when a first run succeeds and every embedded bundle
ships its version marker as a readable top-level regular file, a second
run of EnsureTemplates performs no writes at all and leaves the on-disk
state exactly as the first run left it. -/
theorem ensureTemplates_idempotent_amended
    (td : String) (efs : EmbedFS) (fl : Faults) (w w' : World)
    (hnames : (efs.map TemplateDir.name).Pairwise (· ≠ ·))
    (hslash : ∀ b ∈ efs, noSlash b.name)
    (hdistE : ∀ b ∈ efs, ((b.entries.map EmbeddedEntry.name).Pairwise (· ≠ ·)))
    (hrun : EnsureTemplates td efs fl w = (w', none))
    (hmk : ∀ d ∈ efs, ∃ m ∈ d.entries, m.name = "version.json" ∧ m.isDir = false)
    (hok : ∀ d ∈ efs,
      fl.embedReadFails.contains (embedFilePath d.name "version.json") = false) :
    EnsureTemplates td efs fl w' = (w', none) := by
  unfold EnsureTemplates
  apply ensureLoop_all_skip
  intro d hd
  obtain ⟨m, hm, hmn, hmd⟩ := hmk d hd
  have heq := marker_eq_after_success td efs fl w w' d m hnames hslash hdistE hrun hd
    hm hmn hmd (hok d hd)
  unfold bundleNeedsSync
  rw [heq]
  exact bne_self_eq_false _

theorem ensureTemplates_idempotent_amended_witness :
    EnsureTemplates "INSTALL" efsWithMarker noFaults
        (EnsureTemplates "INSTALL" efsWithMarker noFaults staleWorld).1
      = ((EnsureTemplates "INSTALL" efsWithMarker noFaults staleWorld).1, none) :=
  ensureTemplates_idempotent_amended "INSTALL" efsWithMarker noFaults staleWorld
    (EnsureTemplates "INSTALL" efsWithMarker noFaults staleWorld).1
    (by decide) (by decide) (by decide) (by decide) (by decide) (by decide)

end Powerpipe
